import Mathlib

/-!
Shallow embedding of the neutron-burst notebook `numerical_solution.ipynb`:
the chain ODE right-hand side `dYdt`, the reaction-rate dictionary
`ordered_dict`, the rate-to-cross-section conversion `sigs_array`, the
solar-abundance extraction `get_solar_isotopes`, and the delta
post-processing of `compare_nuclear_network`.

Python list indexing raises `IndexError` when out of bounds; the embedding
returns `Option`, with `none` standing for the raised error.  Machine
floats are modelled by an arbitrary commutative ring / field (`ℚ` for
concrete evaluations, `ℝ` where analysis is needed).
-/

namespace NeutronBurst

/-- One iteration of the loop body in `dYdt`:
`result[i] = sigs[i-1]*y[i-1] - sigs[i]*y[i]`
(`none` when an index is out of bounds, as Python raises `IndexError`). -/
def chainTerm {α : Type} [CommRing α] (y sigs : List α) (i : ℕ) : Option α := do
  let s1 ← sigs[i-1]?
  let y1 ← y[i-1]?
  let s2 ← sigs[i]?
  let y2 ← y[i]?
  pure (s1 * y1 - s2 * y2)

/-- The notebook's right-hand side
```
def dYdt(t, y, sigs):
    N = len(y)
    result = np.zeros(N)
    result[0] = -sigs[0]*y[0]
    for i in range(1, N):
        result[i] = sigs[i-1]*y[i-1] - sigs[i]*y[i]
    return result
```
The unused time argument `t` is kept.  The result list has the length of
`y`; any out-of-bounds index (e.g. `y` empty, or `sigs` shorter than `y`)
yields `none` (Python: `IndexError`). -/
def dYdt {α : Type} [CommRing α] (t : α) (y sigs : List α) : Option (List α) := do
  let s0 ← sigs[0]?
  let y0 ← y[0]?
  let rest ← (List.range' 1 (y.length - 1)).mapM (chainTerm y sigs)
  pure (-(s0 * y0) :: rest)

/-- Most probable thermal neutron speed from the notebook:
`v_T = np.sqrt((2*k*T)/m_n)`.  (Noncomputable because exact `Real.sqrt`
is; the floating `np.sqrt` has no executable exact counterpart.) -/
noncomputable def v_T (k T m_n : ℝ) : ℝ := Real.sqrt ((2*k*T)/m_n)

/-- Body of the notebook's `sigs_array` loop:
`1000*value/(v_T*N_A*wn.consts.GSL_CONST_CGSM_BARN)` (millibarns). -/
def sig_of_rate {α : Type} [Field α] (value vT N_A barn : α) : α :=
  1000 * value / (vT * N_A * barn)

/-- Modelled from the spec, for comparison with `sig_of_rate` only:
section 4.1 prescribes "cross section σ = r / (v_T · N_A) converted to
millibarns via the barn unit constant", i.e. multiplied by 1000 and
divided by the barn constant. -/
def sig_spec {α : Type} [Field α] (value vT N_A barn : α) : α :=
  value / (vT * N_A) * 1000 / barn

/-- One neutron-capture reaction as seen by the notebook's `ordered_dict`
cell: the species name appearing in `value.reactants` and the rate
`reacs[key][0]`. -/
structure Reaction (α : Type) where
  reactant : String
  rate : α

/-- Python dict assignment `d[key] = v`: overwrite the value if the key is
present, otherwise append the pair (dicts preserve insertion order). -/
def dict_insert {α : Type} (d : List (String × α)) (key : String) (v : α) :
    List (String × α) :=
  if d.any (fun p => p.1 == key) then
    d.map (fun p => if p.1 = key then (key, v) else p)
  else d ++ [(key, v)]

/-- The notebook's `ordered_dict` cell:
```
ordered_dict = {}
for sp in species:
    for key, value in net.get_reactions(...).items():
        if sp in value.reactants:
            ordered_dict[sp] = reacs[key][0]
```
The reaction provider is abstracted as a list of (reactant, rate) pairs
in iteration order.  A species with no matching reaction is never
assigned: it silently gets no key. -/
def ordered_dict {α : Type} (species : List String) (reactions : List (Reaction α)) :
    List (String × α) :=
  species.foldl
    (fun d sp =>
      reactions.foldl
        (fun d2 rc => if rc.reactant = sp then dict_insert d2 sp rc.rate else d2) d)
    []

/-- The notebook's `sigs_array` loop: one converted cross section per
`ordered_dict` entry, in dict order. -/
def sigs_array {α : Type} [Field α] (od : List (String × α)) (vT N_A barn : α) :
    List α :=
  od.map (fun p => sig_of_rate p.2 vT N_A barn)

/-- Body of the delta loop in `compare_nuclear_network` for species `sp`:
`1000 * ((yfinal(sp)/yref(sp)) / (yfinal(norm)/yref(norm)) - 1)`,
where `yref` is the reference (solar) abundance map `d_solar` and `norm`
is `normalizing_species`. -/
def delta {α : Type} [Field α] (yfinal yref : String → α) (norm sp : String) : α :=
  1000 * ((yfinal sp / yref sp) / (yfinal norm / yref norm) - 1)

/-- The notebook's `get_solar_isotopes(isotopes)`.  The solar XML is
abstracted as a partial map `x_solar` from isotope name to mass fraction
(`none` when the isotope is absent, the spec's "treated as zero
abundance") and a total map `aOf` to the mass number `tup[1]`.  Returns
`(a, d, abunds)`; an isotope contributes only under
`if s_tup in x_solar`. -/
def get_solar_isotopes {α : Type} [Field α] (isotopes : List String)
    (x_solar : String → Option α) (aOf : String → α) :
    List α × List (String × α) × List α :=
  isotopes.foldl
    (fun acc isotope =>
      match x_solar isotope with
      | some x => (acc.1 ++ [aOf isotope],
                   dict_insert acc.2.1 isotope (x / aOf isotope),
                   acc.2.2 ++ [x / aOf isotope])
      | none => acc)
    ([], [], [])

/-- The delta list of `compare_nuclear_network`: one delta per key of
`d_solar` (the loop is `for sp in d_solar`), with the normalizing
species' reference abundance `d_solar[normalizing_species]` passed as
`yref_norm`. -/
def delta_list {α : Type} [Field α] (d_solar : List (String × α))
    (yfinal : String → α) (norm : String) (yref_norm : α) : List α :=
  d_solar.map (fun p => 1000 * ((yfinal p.1 / p.2) / (yfinal norm / yref_norm) - 1))

/-- Initial condition handed to `solve_ivp` by
`compare_nuclear_network(tau, isotope_abundances)`: the source passes the
GLOBAL `isotope_abunds`, not the `isotope_abundances` parameter. -/
def compare_nuclear_network_y0 {α : Type}
    (isotope_abundances isotope_abunds : List α) : List α :=
  isotope_abunds

/-- Initial condition handed to `solve_ivp` by
`plot_nuclear_network(tau, abunds)`: the `abunds` parameter itself. -/
def plot_nuclear_network_y0 {α : Type} (abunds : List α) : List α :=
  abunds

end NeutronBurst

namespace NeutronBurst

theorem mapM_eq_some_map {β γ : Type} (g : β → Option γ) (f : β → γ) :
    ∀ l : List β, (∀ x ∈ l, g x = some (f x)) → l.mapM g = some (l.map f) := by
  intro l
  induction l with
  | nil => intro _; rfl
  | cons a l ih =>
    intro h
    have ha := h a (List.mem_cons_self a l)
    have hl := ih (fun x hx => h x (List.mem_cons_of_mem a hx))
    simp only [List.mapM_cons, ha, hl, List.map_cons]
    rfl

theorem mapM_eq_none {β γ : Type} (g : β → Option γ) :
    ∀ l : List β, (∃ x ∈ l, g x = none) → l.mapM g = none := by
  intro l
  induction l with
  | nil => rintro ⟨x, hx, _⟩; cases hx
  | cons a l ih =>
    rintro ⟨x, hx, hgx⟩
    rcases List.mem_cons.mp hx with h | h
    · subst h
      simp only [List.mapM_cons, hgx]
      rfl
    · have hl := ih ⟨x, h, hgx⟩
      simp only [List.mapM_cons, hl]
      cases hga : g a <;> rfl

/-- Value of the loop body at an in-bounds interior/terminal index. -/
theorem chainTerm_eq_some {α : Type} [CommRing α] (y sigs : List α) (i : ℕ)
    (h2 : i < y.length) (h3 : i < sigs.length) :
    chainTerm y sigs i =
      some (sigs.getD (i-1) 0 * y.getD (i-1) 0 - sigs.getD i 0 * y.getD i 0) := by
  have h2' : i - 1 < y.length := lt_of_le_of_lt (Nat.sub_le i 1) h2
  have h3' : i - 1 < sigs.length := lt_of_le_of_lt (Nat.sub_le i 1) h3
  simp [chainTerm, List.getElem?_eq_getElem, h2, h3, h2', h3',
    List.getD_eq_getElem?_getD]

/-- The loop body fails as soon as `sigs[i]` is out of bounds. -/
theorem chainTerm_eq_none {α : Type} [CommRing α] (y sigs : List α) (i : ℕ)
    (h : sigs.length ≤ i) : chainTerm y sigs i = none := by
  have : sigs[i]? = none := by
    simp [List.getElem?_eq_none h]
  cases hs : sigs[(i-1)]? <;> cases hy : y[(i-1)]? <;>
    simp [chainTerm, hs, hy, this]

/-- Explicit form of `dYdt` when all indices are in bounds
(`1 ≤ len(y) ≤ len(sigs)`). -/
theorem dYdt_eq_some {α : Type} [CommRing α] (t : α) (y sigs : List α)
    (h1 : 1 ≤ y.length) (h2 : y.length ≤ sigs.length) :
    dYdt t y sigs =
      some ((-(sigs.getD 0 0 * y.getD 0 0)) ::
        (List.range' 1 (y.length - 1)).map
          (fun i => sigs.getD (i-1) 0 * y.getD (i-1) 0 - sigs.getD i 0 * y.getD i 0)) := by
  have hy0 : 0 < y.length := h1
  have hs0 : 0 < sigs.length := lt_of_lt_of_le hy0 h2
  have hmap : (List.range' 1 (y.length - 1)).mapM (chainTerm y sigs) =
      some ((List.range' 1 (y.length - 1)).map
        (fun i => sigs.getD (i-1) 0 * y.getD (i-1) 0 - sigs.getD i 0 * y.getD i 0)) := by
    refine mapM_eq_some_map _ _ _ (fun i hi => ?_)
    rcases List.mem_range'.mp hi with ⟨j, hj, rfl⟩
    have hiy : 1 + 1 * j < y.length := by omega
    exact chainTerm_eq_some y sigs _ hiy (lt_of_lt_of_le hiy h2)
  simp only [dYdt, hmap, List.getElem?_eq_getElem hy0, List.getElem?_eq_getElem hs0]
  simp [List.getD_eq_getElem?_getD, List.getElem?_eq_getElem, hy0, hs0]

/-- The function `dYdt` raises (returns `none`) whenever the cross-section
list is shorter than the abundance list. -/
theorem dYdt_none_of_short {α : Type} [CommRing α] (t : α) (y sigs : List α)
    (h : sigs.length < y.length) : dYdt t y sigs = none := by
  rcases Nat.eq_zero_or_pos sigs.length with hs0 | hs0
  · have : sigs[0]? = none := List.getElem?_eq_none (by omega)
    simp only [dYdt, this]
    rfl
  · have hy0 : 0 < y.length := lt_of_le_of_lt (Nat.zero_le _) h
    have hmem : sigs.length ∈ List.range' 1 (y.length - 1) :=
      List.mem_range'.mpr ⟨sigs.length - 1, by omega, by omega⟩
    have hmap : (List.range' 1 (y.length - 1)).mapM (chainTerm y sigs) = none :=
      mapM_eq_none _ _ ⟨sigs.length, hmem, chainTerm_eq_none y sigs _ (le_refl _)⟩
    simp only [dYdt, hmap, List.getElem?_eq_getElem hy0, List.getElem?_eq_getElem hs0]
    rfl

/-- The function `dYdt` raises (returns `none`) on an empty abundance vector. -/
theorem dYdt_none_of_empty {α : Type} [CommRing α] (t : α) (y sigs : List α)
    (h : y.length = 0) : dYdt t y sigs = none := by
  have : y[0]? = none := List.getElem?_eq_none (by omega)
  cases hs : sigs[0]? <;> simp [dYdt, hs, this]

/-- The function `dYdt` evaluates without an `IndexError` exactly when the
abundance vector is nonempty and the cross-section list covers every species. -/
theorem dYdt_isSome_iff {α : Type} [CommRing α] (t : α) (y sigs : List α) :
    (dYdt t y sigs).isSome ↔ 1 ≤ y.length ∧ y.length ≤ sigs.length := by
  constructor
  · intro h
    by_contra hcon
    rcases Nat.lt_or_ge sigs.length y.length with hlt | hge
    · rw [dYdt_none_of_short t y sigs hlt] at h
      exact (Bool.false_ne_true h).elim
    · have hy : y.length = 0 := by omega
      rw [dYdt_none_of_empty t y sigs hy] at h
      exact (Bool.false_ne_true h).elim
  · rintro ⟨h1, h2⟩
    rw [dYdt_eq_some t y sigs h1 h2]
    rfl

/-- Telescoping sum of the interior/terminal loop terms. -/
theorem sum_range'_telescope {α : Type} [CommRing α] (sigs y : List α) :
    ∀ (n s : ℕ), 1 ≤ s →
      ((List.range' s n).map
        (fun i => sigs.getD (i-1) 0 * y.getD (i-1) 0 - sigs.getD i 0 * y.getD i 0)).sum
      = sigs.getD (s-1) 0 * y.getD (s-1) 0 - sigs.getD (s+n-1) 0 * y.getD (s+n-1) 0 := by
  intro n
  induction n with
  | zero =>
    intro s hs
    simp
  | succ n ih =>
    intro s hs
    rw [List.range'_succ, List.map_cons, List.sum_cons, ih (s+1) (by omega)]
    have e1 : s + 1 - 1 = s := by omega
    have e2 : s + 1 + n - 1 = s + n := by omega
    have e3 : s + (n + 1) - 1 = s + n := by omega
    rw [e1, e2, e3]
    ring

/-- Helper: `dYdt` on a single-species chain is `[-s*y]`. -/
theorem dYdt_single (t x s : ℝ) : dYdt t [x] [s] = some [-(s * x)] := rfl

/-- C1 counterexample: the claim says the terminal species gets a pure-sink
equation `dy[N-1] = sigs[N-2]*y[N-2]` and that `sigs[N-1]` has no effect.
On the chain `y = [0, 1]`, `sigs = [0, 1]` the code yields terminal
component `-1`, not `sigs[0]*y[0] = 0`, and changing `sigs[1]` from `1`
to `2` changes the result: `sigs[N-1]` does have an effect. -/
theorem dYdt_terminal_not_pure_sink_cex :
    dYdt (0:ℤ) [0, 1] [0, 1] = some [0, -1] ∧
    dYdt (0:ℤ) [0, 1] [0, 2] = some [0, -2] ∧
    dYdt (0:ℤ) [0, 1] [0, 1] ≠ dYdt (0:ℤ) [0, 1] [0, 2] := by
  decide

/-- C1 (amended): for every chain of `N ≥ 2` species with a cross section
per species, the terminal component of `dYdt` is
`sigs[N-2]*y[N-2] - sigs[N-1]*y[N-1]`: the capture out of the chain is
included, so the last cross-section entry does affect the result. -/
theorem dYdt_terminal_entry {α : Type} [CommRing α] (t : α) (y sigs : List α)
    (hN : 2 ≤ y.length) (hs : sigs.length = y.length) :
    ∃ r, dYdt t y sigs = some r ∧
      r[y.length - 1]? =
        some (sigs.getD (y.length - 2) 0 * y.getD (y.length - 2) 0 -
              sigs.getD (y.length - 1) 0 * y.getD (y.length - 1) 0) := by
  refine ⟨_, dYdt_eq_some t y sigs (by omega) (by omega), ?_⟩
  have hsplit : y.length - 1 = (y.length - 2) + 1 := by omega
  have hlt : y.length - 2 < y.length - 2 + 1 := by omega
  rw [hsplit, List.getElem?_cons_succ, List.getElem?_map,
    List.getElem?_range' 1 1 hlt, Option.map_some']
  have e1 : 1 + 1 * (y.length - 2) - 1 = y.length - 2 := by omega
  have e2 : 1 + 1 * (y.length - 2) = y.length - 2 + 1 := by omega
  rw [e1, e2]

/-- C1 witness: instantiation of the amended terminal-entry theorem on the
concrete chain `y = [0, 1]`, `sigs = [1, 1]` over `ℤ`. -/
theorem dYdt_terminal_entry_witness :
    2 ≤ ([(0:ℤ), 1] : List ℤ).length ∧
    ∃ r, dYdt (0:ℤ) [0, 1] [1, 1] = some r ∧
      r[([(0:ℤ), 1] : List ℤ).length - 1]? =
        some (([(1:ℤ), 1] : List ℤ).getD 0 0 * ([(0:ℤ), 1] : List ℤ).getD 0 0 -
              ([(1:ℤ), 1] : List ℤ).getD 1 0 * ([(0:ℤ), 1] : List ℤ).getD 1 0) :=
  ⟨by decide, dYdt_terminal_entry (0:ℤ) [0, 1] [1, 1] (by decide) (by decide)⟩

/-- C2 counterexample: the claim says the components of `dYdt` always sum
to zero (mass conservation).  On the chain `y = [0, 1]`, `sigs = [1, 1]`
the code returns `[0, -1]`, whose sum is `-1 ≠ 0`: mass leaks out of the
terminal species. -/
theorem dYdt_sum_ne_zero_cex :
    dYdt (0:ℤ) [0, 1] [1, 1] = some [0, -1] ∧ ([(0:ℤ), -1] : List ℤ).sum ≠ 0 := by
  decide

/-- C2 (amended): for every chain the components of `dYdt` sum to
`-(sigs[N-1]*y[N-1])`, the leak out of the terminal species; the total
abundance is conserved only when that product is zero. -/
theorem dYdt_sum_eq_neg_leak {α : Type} [CommRing α] (t : α) (y sigs : List α)
    (h1 : 1 ≤ y.length) (h2 : y.length ≤ sigs.length) :
    ∃ r, dYdt t y sigs = some r ∧
      r.sum = -(sigs.getD (y.length - 1) 0 * y.getD (y.length - 1) 0) := by
  refine ⟨_, dYdt_eq_some t y sigs h1 h2, ?_⟩
  rw [List.sum_cons, sum_range'_telescope sigs y (y.length - 1) 1 (le_refl 1)]
  have e1 : (1:ℕ) - 1 = 0 := rfl
  have e2 : 1 + (y.length - 1) - 1 = y.length - 1 := by omega
  rw [e1, e2]
  ring

/-- C2 witness: instantiation of the amended sum formula on the concrete
chain `y = [0, 1]`, `sigs = [1, 1]` over `ℤ`. -/
theorem dYdt_sum_eq_neg_leak_witness :
    1 ≤ ([(0:ℤ), 1] : List ℤ).length ∧
    ∃ r, dYdt (0:ℤ) [0, 1] [1, 1] = some r ∧
      r.sum = -(([(1:ℤ), 1] : List ℤ).getD 1 0 * ([(0:ℤ), 1] : List ℤ).getD 1 0) :=
  ⟨by decide, dYdt_sum_eq_neg_leak (0:ℤ) [0, 1] [1, 1] (by decide) (by decide)⟩

/-- C3: for every abundance vector of length `N ≥ 2` and cross-section
array of length `N`, `dYdt` returns a vector whose first component is
`-sigs[0]*y[0]` and whose interior components (`1 ≤ i < N-1`) are
`sigs[i-1]*y[i-1] - sigs[i]*y[i]`. -/
theorem dYdt_first_and_interior {α : Type} [CommRing α] (t : α) (y sigs : List α)
    (hN : 2 ≤ y.length) (hs : sigs.length = y.length) :
    ∃ r, dYdt t y sigs = some r ∧
      r[0]? = some (-(sigs.getD 0 0 * y.getD 0 0)) ∧
      ∀ i, 1 ≤ i → i < y.length - 1 →
        r[i]? = some (sigs.getD (i-1) 0 * y.getD (i-1) 0 - sigs.getD i 0 * y.getD i 0) := by
  refine ⟨_, dYdt_eq_some t y sigs (by omega) (by omega), List.getElem?_cons_zero, ?_⟩
  intro i h1 h2
  obtain ⟨j, rfl⟩ : ∃ j, i = j + 1 := ⟨i - 1, by omega⟩
  have hj : j < y.length - 1 := by omega
  rw [List.getElem?_cons_succ, List.getElem?_map, List.getElem?_range' 1 1 hj,
    Option.map_some']
  have e1 : 1 + 1 * j = j + 1 := by omega
  rw [e1]

/-- C3 witness: instantiation of the first/interior-component theorem on
the concrete chain `y = [1, 2, 3]`, `sigs = [5, 7, 11]` over `ℤ`. -/
theorem dYdt_first_and_interior_witness :
    2 ≤ ([(1:ℤ), 2, 3] : List ℤ).length ∧
    ∃ r, dYdt (0:ℤ) [1, 2, 3] [5, 7, 11] = some r ∧
      r[0]? = some (-(([(5:ℤ), 7, 11] : List ℤ).getD 0 0 * ([(1:ℤ), 2, 3] : List ℤ).getD 0 0)) ∧
      ∀ i, 1 ≤ i → i < ([(1:ℤ), 2, 3] : List ℤ).length - 1 →
        r[i]? = some (([(5:ℤ), 7, 11] : List ℤ).getD (i-1) 0 * ([(1:ℤ), 2, 3] : List ℤ).getD (i-1) 0 -
                      ([(5:ℤ), 7, 11] : List ℤ).getD i 0 * ([(1:ℤ), 2, 3] : List ℤ).getD i 0) :=
  ⟨by decide, dYdt_first_and_interior (0:ℤ) [1, 2, 3] [5, 7, 11] (by decide) (by decide)⟩

/-- C10: for every abundance vector `y` of length `N ≥ 1`, `dYdt` is
evaluable exactly when the cross-section list has at least `N` entries,
and with `N - 1` cross sections (one per non-terminal species) it raises
an out-of-bounds `IndexError` (modelled as `none`). -/
theorem dYdt_requires_full_sigs {α : Type} [CommRing α] (t : α) (y sigs : List α)
    (h : 1 ≤ y.length) :
    ((dYdt t y sigs).isSome ↔ y.length ≤ sigs.length) ∧
    (sigs.length + 1 = y.length → dYdt t y sigs = none) := by
  constructor
  · rw [dYdt_isSome_iff]
    exact ⟨fun hp => hp.2, fun hp => ⟨h, hp⟩⟩
  · intro hlen
    exact dYdt_none_of_short t y sigs (by omega)

/-- Helper: the source's conversion agrees with the spec's phrasing for
every rate and every values of the constants. -/
theorem sig_of_rate_eq_sig_spec {α : Type} [Field α] (value vT N_A barn : α) :
    sig_of_rate value vT N_A barn = sig_spec value vT N_A barn := by
  simp only [sig_of_rate, sig_spec, div_eq_mul_inv, mul_inv]
  ring

/-- Helper: a member of `dict_insert d key v` either has the inserted key
or was already in `d`. -/
theorem dict_insert_mem {α : Type} (d : List (String × α)) (key : String) (v : α)
    (q : String × α) (hq : q ∈ dict_insert d key v) : q.1 = key ∨ q ∈ d := by
  unfold dict_insert at hq
  by_cases hc : d.any (fun p => p.1 == key)
  · rw [if_pos hc] at hq
    rcases List.mem_map.mp hq with ⟨p, hp, rfl⟩
    by_cases hpk : p.1 = key
    · rw [if_pos hpk]
      exact Or.inl rfl
    · rw [if_neg hpk]
      exact Or.inr hp
  · rw [if_neg hc] at hq
    rcases List.mem_append.mp hq with h | h
    · exact Or.inr h
    · rw [List.mem_singleton.mp h]
      exact Or.inl rfl

/-- Helper: the inner loop of `ordered_dict` (over the reaction table)
never creates a key for a species that no reaction produces. -/
theorem ordered_dict_inner_keys {α : Type} (reactions : List (Reaction α))
    (sp sp' : String) (h : ∀ rc ∈ reactions, rc.reactant ≠ sp) :
    ∀ (l : List (Reaction α)), (∀ rc ∈ l, rc ∈ reactions) →
    ∀ (d : List (String × α)), (∀ p ∈ d, p.1 ≠ sp) →
    ∀ p ∈ l.foldl
      (fun d2 rc => if rc.reactant = sp' then dict_insert d2 sp' rc.rate else d2) d,
      p.1 ≠ sp := by
  intro l
  induction l with
  | nil => intro _ d hd; exact hd
  | cons rc l ih =>
    intro hl d hd
    rw [List.foldl_cons]
    refine ih (fun x hx => hl x (List.mem_cons_of_mem rc hx)) _ ?_
    by_cases hrc : rc.reactant = sp'
    · rw [if_pos hrc]
      intro p hp
      rcases dict_insert_mem d sp' rc.rate p hp with hk | hold
      · rw [hk]
        rw [← hrc]
        exact h rc (hl rc (List.mem_cons_self rc l))
      · exact hd p hold
    · rw [if_neg hrc]
      exact hd
/-- Helper: keys of `ordered_dict` only come from species with a matching
reaction. -/
theorem ordered_dict_keys {α : Type} (reactions : List (Reaction α)) (sp : String)
    (h : ∀ rc ∈ reactions, rc.reactant ≠ sp) :
    ∀ (species : List String) (d : List (String × α)), (∀ p ∈ d, p.1 ≠ sp) →
    ∀ p ∈ species.foldl
      (fun d sp' => reactions.foldl
        (fun d2 rc => if rc.reactant = sp' then dict_insert d2 sp' rc.rate else d2) d) d,
      p.1 ≠ sp := by
  intro species
  induction species with
  | nil => intro d hd; exact hd
  | cons sp' species ih =>
    intro d hd
    rw [List.foldl_cons]
    exact ih _ (ordered_dict_inner_keys reactions sp sp' h reactions (fun _ hx => hx) d hd)

/-- Helper: the accumulator invariant of `get_solar_isotopes`: an isotope
absent from the solar data never becomes a key of `d`. -/
theorem get_solar_isotopes_keys {α : Type} [Field α]
    (x_solar : String → Option α) (aOf : String → α) (sp : String)
    (h : x_solar sp = none) :
    ∀ (l : List String) (acc : List α × List (String × α) × List α),
      (∀ p ∈ acc.2.1, p.1 ≠ sp) →
      ∀ p ∈ (l.foldl
        (fun acc isotope =>
          match x_solar isotope with
          | some x => (acc.1 ++ [aOf isotope],
                       dict_insert acc.2.1 isotope (x / aOf isotope),
                       acc.2.2 ++ [x / aOf isotope])
          | none => acc)
        acc).2.1, p.1 ≠ sp := by
  intro l
  induction l with
  | nil => intro acc hacc; exact hacc
  | cons isotope l ih =>
    intro acc hacc
    rw [List.foldl_cons]
    refine ih _ ?_
    cases hx : x_solar isotope with
    | none => simpa [hx] using hacc
    | some x =>
      simp only [hx]
      intro p hp
      rcases dict_insert_mem acc.2.1 isotope (x / aOf isotope) p hp with hk | hold
      · rw [hk]
        intro heq
        rw [heq, h] at hx
        cases hx
      · exact hacc p hold

/-- C5: the conversion computes the most probable thermal speed
`v_T = sqrt(2*k_B*T/m_n)` and turns each rate `r` into
`r/(v_T*N_A)` in millibarns — multiplied by 1000 and divided by the barn
constant — and `sigs_array` applies exactly that to every entry of the
rate dictionary. -/
theorem sigs_conversion_matches_spec (k T m_n value N_A barn : ℝ)
    (od : List (String × ℝ)) :
    v_T k T m_n = Real.sqrt (2*k*T/m_n) ∧
    sig_of_rate value (v_T k T m_n) N_A barn =
      value / (v_T k T m_n * N_A) * 1000 / barn ∧
    sigs_array od (v_T k T m_n) N_A barn =
      od.map (fun p => sig_spec p.2 (v_T k T m_n) N_A barn) := by
  refine ⟨rfl, sig_of_rate_eq_sig_spec value _ N_A barn, ?_⟩
  unfold sigs_array
  exact List.map_congr_left fun p _ => sig_of_rate_eq_sig_spec p.2 _ N_A barn

/-- C6 counterexample: the claim says a non-terminal species absent from
the rate mapping makes the conversion signal `MissingRateError`.  With
chain `["a", "b", "c"]` and reactions only for `"a"` and `"c"`, the code
raises nothing: `ordered_dict` silently omits the non-terminal `"b"` and
`sigs_array` returns a 2-entry array for the 3-species chain. -/
theorem ordered_dict_skips_missing_cex :
    ordered_dict ["a", "b", "c"] [⟨"a", (1:ℤ)⟩, ⟨"c", (2:ℤ)⟩] = [("a", 1), ("c", 2)] ∧
    (sigs_array [("a", (1:ℚ)), ("c", (2:ℚ))] 1 1 1).length = 2 :=
  ⟨by decide, by simp [sigs_array]⟩

/-- C6 (amended): a species absent from the rate mapping — terminal or
not — is silently omitted: no error is signaled, the species simply gets
no key in `ordered_dict` (and hence no entry in `sigs_array`). -/
theorem ordered_dict_omits_rateless_species {α : Type} (species : List String)
    (reactions : List (Reaction α)) (sp : String)
    (h : ∀ rc ∈ reactions, rc.reactant ≠ sp) :
    ∀ p ∈ ordered_dict species reactions, p.1 ≠ sp := by
  unfold ordered_dict
  exact ordered_dict_keys reactions sp h species [] (by intro p hp; cases hp)

/-- C6 witness: instantiation on the chain `["a", "b", "c"]` with
reactions only for `"a"` and `"c"`: the non-terminal `"b"` never appears
as a key. -/
theorem ordered_dict_omits_rateless_species_witness :
    (∀ rc ∈ ([⟨"a", (1:ℤ)⟩, ⟨"c", (2:ℤ)⟩] : List (Reaction ℤ)), rc.reactant ≠ "b") ∧
    ∀ p ∈ ordered_dict ["a", "b", "c"] [⟨"a", (1:ℤ)⟩, ⟨"c", (2:ℤ)⟩], p.1 ≠ "b" :=
  ⟨by decide, ordered_dict_omits_rateless_species _ _ _ (by decide)⟩

/-- C7: the post-processor computes
`delta(sp) = 1000*((yfinal(sp)/yref(sp))/(yfinal(norm)/yref(norm)) - 1)`,
and for a normalizing species with strictly positive reference and final
abundance, `delta(norm) = 0`. -/
theorem delta_formula_and_norm_zero {α : Type} [LinearOrderedField α]
    (yfinal yref : String → α) (norm : String)
    (h1 : 0 < yref norm) (h2 : 0 < yfinal norm) :
    (∀ sp, delta yfinal yref norm sp =
      1000 * ((yfinal sp / yref sp) / (yfinal norm / yref norm) - 1)) ∧
    delta yfinal yref norm norm = 0 := by
  refine ⟨fun sp => rfl, ?_⟩
  unfold delta
  rw [div_self (div_ne_zero h2.ne' h1.ne')]
  ring

/-- C7 witness: instantiation with unit abundances and normalizing
species `"ca40"` over `ℚ`. -/
theorem delta_formula_and_norm_zero_witness :
    (0:ℚ) < 1 ∧
    ((∀ sp : String, delta (fun _ => (1:ℚ)) (fun _ => 1) "ca40" sp =
        1000 * (((1:ℚ)/1) / ((1:ℚ)/1) - 1)) ∧
      delta (fun _ => (1:ℚ)) (fun _ => 1) "ca40" "ca40" = 0) :=
  ⟨by norm_num,
   delta_formula_and_norm_zero (fun _ => (1:ℚ)) (fun _ => 1) "ca40"
     (by norm_num) (by norm_num)⟩

/-- C8 counterexample: the claim says a species with zero reference
abundance makes the delta computation signal `UndefinedDeltaError` rather
than being silently skipped.  With isotopes `["ca40", "ca46"]` where the
solar data lacks `"ca46"`, the code raises nothing: `get_solar_isotopes`
silently drops `"ca46"` from `d_solar` and the delta loop (which runs over
`d_solar` keys only) produces a 1-entry list. -/
theorem get_solar_isotopes_skips_absent_cex :
    get_solar_isotopes ["ca40", "ca46"]
        (fun s => if s = "ca40" then some (1:ℚ) else none) (fun _ => 1)
      = ([1], [("ca40", 1)], [1]) ∧
    (delta_list [("ca40", (1:ℚ))] (fun _ => 1) "ca40" 1).length = 1 := by
  constructor
  · have hne : ("ca46" : String) ≠ "ca40" := by decide
    norm_num [get_solar_isotopes, dict_insert, hne]
  · simp [delta_list]

/-- C8 (amended): a species whose reference abundance is absent from the
solar data (the zero-abundance case) is silently excluded: it never
becomes a key of `d_solar`, hence gets no delta entry, and no error is
signaled. -/
theorem absent_reference_silently_skipped {α : Type} [Field α]
    (isotopes : List String) (x_solar : String → Option α) (aOf : String → α)
    (sp : String) (h : x_solar sp = none) :
    ∀ p ∈ (get_solar_isotopes isotopes x_solar aOf).2.1, p.1 ≠ sp := by
  unfold get_solar_isotopes
  exact get_solar_isotopes_keys x_solar aOf sp h isotopes ([], [], [])
    (by intro p hp; cases hp)

/-- C8 witness: instantiation on isotopes `["ca40", "ca46"]` with
`"ca46"` absent from the solar data over `ℚ`. -/
theorem absent_reference_silently_skipped_witness :
    (fun s => if s = "ca40" then some (1:ℚ) else none) "ca46" = none ∧
    ∀ p ∈ (get_solar_isotopes ["ca40", "ca46"]
        (fun s => if s = "ca40" then some (1:ℚ) else none) (fun _ => 1)).2.1,
      p.1 ≠ "ca46" :=
  ⟨by decide,
   absent_reference_silently_skipped ["ca40", "ca46"] _ (fun _ => 1) "ca46"
     (by decide)⟩

/-- C9: `compare_nuclear_network` does NOT integrate from its passed
abundance vector: the initial condition handed to `solve_ivp` is the
global `isotope_abunds` regardless of the `isotope_abundances` argument,
so two calls with different passed vectors integrate from the same
initial condition.  The sibling `plot_nuclear_network` does use its
parameter.  Failing input: pass `[1]` while the global is `[2]`: the
integration starts from `[2]`. -/
theorem compare_nuclear_network_ignores_passed_abunds :
    (∀ (passed other globalAbunds : List ℤ),
      compare_nuclear_network_y0 passed globalAbunds =
        compare_nuclear_network_y0 other globalAbunds) ∧
    compare_nuclear_network_y0 [(1:ℤ)] [2] = [2] ∧
    compare_nuclear_network_y0 [(1:ℤ)] [2] ≠ [1] ∧
    plot_nuclear_network_y0 [(1:ℤ)] = [1] :=
  ⟨fun _ _ _ => rfl, rfl, by decide, rfl⟩

/-- C4: for a single-species chain, any trajectory whose derivative is
everywhere the value given by `dYdt` and whose initial value is `y0` is
the exponential decay `y0 * exp(-s*τ)`; in the concrete scenario `s = 1`,
`y0 = 5`, `τ = 1` the value is `5·e⁻¹ ≈ 1.8394` (within `10⁻³`). -/
theorem single_species_exponential_decay (s y0 : ℝ) (Y : ℝ → ℝ)
    (h0 : Y 0 = y0)
    (hode : ∀ τ, ∃ d, dYdt τ [Y τ] [s] = some [d] ∧ HasDerivAt Y d τ) :
    (∀ τ, Y τ = y0 * Real.exp (-(s * τ))) ∧
    (s = 1 → y0 = 5 → |Y 1 - 1.8394| < 1/1000) := by
  have hode' : ∀ τ, HasDerivAt Y (-(s * Y τ)) τ := by
    intro τ
    obtain ⟨d, hd, hD⟩ := hode τ
    rw [dYdt_single τ (Y τ) s] at hd
    simp only [Option.some.injEq, List.cons.injEq, and_true] at hd
    rw [← hd] at hD
    exact hD
  have hg : ∀ τ, HasDerivAt (fun u => Y u * Real.exp (s * u)) 0 τ := by
    intro τ
    have hexp : HasDerivAt (fun u : ℝ => Real.exp (s * u)) (Real.exp (s * τ) * s) τ := by
      simpa using ((hasDerivAt_id τ).const_mul s).exp
    have hmul := (hode' τ).mul hexp
    convert hmul using 1
    ring
  have hconst : ∀ τ : ℝ, Y τ * Real.exp (s * τ) = Y 0 * Real.exp (s * 0) :=
    fun τ => is_const_of_deriv_eq_zero
      (fun x => (hg x).differentiableAt) (fun x => (hg x).deriv) τ 0
  have hform : ∀ τ, Y τ = y0 * Real.exp (-(s * τ)) := by
    intro τ
    have h1 : Y τ * Real.exp (s * τ) = y0 := by
      have h2 := hconst τ
      rw [mul_zero, Real.exp_zero, mul_one, h0] at h2
      exact h2
    have hexp_ne : Real.exp (s * τ) ≠ 0 := (Real.exp_pos _).ne'
    rw [Real.exp_neg]
    field_simp
    linarith [h1]
  refine ⟨hform, ?_⟩
  intro hs hy0
  subst hs; subst hy0
  rw [hform 1]
  have hgt := Real.exp_one_gt_d9
  have hlt := Real.exp_one_lt_d9
  have epos : (0:ℝ) < Real.exp 1 := Real.exp_pos 1
  have e1 : -(1 * (1:ℝ)) = -1 := by norm_num
  rw [e1, Real.exp_neg, abs_lt]
  have hinv : (Real.exp 1)⁻¹ * Real.exp 1 = 1 := inv_mul_cancel₀ epos.ne'
  have hinvpos : (0:ℝ) < (Real.exp 1)⁻¹ := inv_pos.mpr epos
  constructor
  · nlinarith [hinv, hinvpos, hlt]
  · nlinarith [hinv, hinvpos, hgt]

/-- C4 witness: the concrete trajectory `τ ↦ 5·exp(-τ)` solves the
single-species system with `s = 1`, `y0 = 5`, and its value at `τ = 1`
is within `10⁻³` of `1.8394`. -/
theorem single_species_exponential_decay_witness :
    ((fun τ : ℝ => 5 * Real.exp (-(1 * τ))) 0 = 5) ∧
    (∀ τ : ℝ, ∃ d, dYdt τ [(fun τ : ℝ => 5 * Real.exp (-(1 * τ))) τ] [1] = some [d] ∧
      HasDerivAt (fun τ : ℝ => 5 * Real.exp (-(1 * τ))) d τ) ∧
    ((∀ τ : ℝ, (fun τ : ℝ => 5 * Real.exp (-(1 * τ))) τ = 5 * Real.exp (-(1 * τ))) ∧
     ((1:ℝ) = 1 → (5:ℝ) = 5 → |(fun τ : ℝ => 5 * Real.exp (-(1 * τ))) 1 - 1.8394| < 1/1000)) := by
  have h0pf : (fun τ : ℝ => 5 * Real.exp (-(1 * τ))) 0 = 5 := by norm_num
  have hodepf : ∀ τ : ℝ, ∃ d, dYdt τ [(fun τ : ℝ => 5 * Real.exp (-(1 * τ))) τ] [1] = some [d] ∧
      HasDerivAt (fun τ : ℝ => 5 * Real.exp (-(1 * τ))) d τ := by
    intro τ
    refine ⟨-(1 * (5 * Real.exp (-(1 * τ)))), dYdt_single τ _ 1, ?_⟩
    have h1 : HasDerivAt (fun u : ℝ => -(1 * u)) (-1) τ := by
      simpa using ((hasDerivAt_id τ).const_mul (1:ℝ)).neg
    have h3 := (h1.exp).const_mul (5:ℝ)
    convert h3 using 1
    ring
  exact ⟨h0pf, hodepf, single_species_exponential_decay 1 5 _ h0pf hodepf⟩

/-- C10 witness: instantiation on `y = [1, 1]`, `sigs = [1]` over `ℤ`:
one cross section for a two-species chain makes `dYdt` raise. -/
theorem dYdt_requires_full_sigs_witness :
    1 ≤ ([(1:ℤ), 1] : List ℤ).length ∧
    (((dYdt (0:ℤ) [1, 1] [1]).isSome ↔ ([(1:ℤ), 1] : List ℤ).length ≤ ([(1:ℤ)] : List ℤ).length) ∧
     (([(1:ℤ)] : List ℤ).length + 1 = ([(1:ℤ), 1] : List ℤ).length → dYdt (0:ℤ) [1, 1] [1] = none)) :=
  ⟨by decide, dYdt_requires_full_sigs (0:ℤ) [1, 1] [1] (by decide)⟩

end NeutronBurst

